import Mathlib

/-!
Verification of the A/B/n variant resolver of `otl-core/cms-utils`
(`src/abn-resolver.utils.js`).

The resolver is shallowly embedded:

* JavaScript numbers are modelled by `JSNum`: exact rationals extended with
  `NaN` and the two infinities.  Finite arithmetic is exact (float rounding is
  idealized away), while the special values follow IEEE/JS rules, which is
  what the zero-total-weight paths of the resolver exercise.
* JavaScript values are modelled by `JSValue` (null, undefined, booleans,
  numbers, strings, arrays, objects-as-association-lists).
* A thrown `Error` is modelled by `Except String`; functions that can only
  observe a throw from a callee propagate it, exactly as synchronous JS
  exceptions do.
* In-place mutation (`resolveBlogPostVariant`) is modelled by returning the
  updated record.
-/

set_option autoImplicit false

namespace CmsUtils

/-- A JavaScript number: an exact rational, `NaN`, or an infinity. -/
inductive JSNum where
  | nan
  | posInf
  | negInf
  | fin (q : ℚ)
  deriving DecidableEq, Repr

namespace JSNum

/-- JS `+` on numbers. -/
def add : JSNum → JSNum → JSNum
  | nan, _ => nan
  | _, nan => nan
  | posInf, negInf => nan
  | negInf, posInf => nan
  | posInf, _ => posInf
  | _, posInf => posInf
  | negInf, _ => negInf
  | _, negInf => negInf
  | fin a, fin b => fin (a + b)

/-- JS `/` on numbers (division by zero yields an infinity or `NaN`). -/
def div : JSNum → JSNum → JSNum
  | nan, _ => nan
  | _, nan => nan
  | posInf, posInf => nan
  | posInf, negInf => nan
  | negInf, posInf => nan
  | negInf, negInf => nan
  | posInf, fin b => if 0 ≤ b then posInf else negInf
  | negInf, fin b => if 0 ≤ b then negInf else posInf
  | fin _, posInf => fin 0
  | fin _, negInf => fin 0
  | fin a, fin b =>
    if b = 0 then
      if a = 0 then nan else if 0 < a then posInf else negInf
    else fin (a / b)

/-- JS `<` on numbers: any comparison with `NaN` is false. -/
def jlt : JSNum → JSNum → Bool
  | nan, _ => false
  | _, nan => false
  | negInf, negInf => false
  | negInf, _ => true
  | posInf, _ => false
  | fin _, negInf => false
  | fin _, posInf => true
  | fin a, fin b => a < b

/-- JS `===` on two numbers: `NaN` is equal to nothing, not even itself. -/
def strictEq : JSNum → JSNum → Bool
  | nan, _ => false
  | _, nan => false
  | posInf, posInf => true
  | negInf, negInf => true
  | fin a, fin b => a == b
  | _, _ => false

end JSNum

instance : Add JSNum := ⟨JSNum.add⟩
instance : Div JSNum := ⟨JSNum.div⟩
instance : OfNat JSNum 0 := ⟨JSNum.fin 0⟩

/-- The numeric comparison a weight type supplies to the selector: JS `<`. -/
class JSCompare (W : Type) where
  jlt : W → W → Bool

instance : JSCompare JSNum := ⟨JSNum.jlt⟩

instance : JSCompare ℚ := ⟨fun a b => decide (a < b)⟩

/-- What `selectVariant` reads off a variant: an `id` and a `weight`.  The
source is untyped; each call site of the library instantiates `α` and `W`
with the shapes it actually passes. -/
structure WeightedVariant (α W : Type) where
  id : α
  weight : W
  deriving DecidableEq, Repr

/-- `variants.reduce((sum, v) => sum + v.weight, 0)` of `selectVariant`. -/
def totalWeight {α W : Type} [Add W] [OfNat W 0]
    (variants : List (WeightedVariant α W)) : W :=
  variants.foldl (fun sum v => sum + v.weight) 0

/-- The `for`-loop of `selectVariant`: walk the variants accumulating
`cumulative += weight / totalWeight`; return the first id with
`bucket < cumulative`, or nothing when the loop falls through. -/
def selectGo {α W : Type} [Add W] [Div W] [JSCompare W] (bucket totalW : W) :
    W → List (WeightedVariant α W) → Option α
  | _, [] => none
  | cumulative, v :: rest =>
    let c := cumulative + v.weight / totalW
    if JSCompare.jlt bucket c then some v.id else selectGo bucket totalW c rest

/-- `selectVariant(bucket, variants)` from `src/abn-resolver.utils.js`:
throws on an empty list, otherwise walks normalized cumulative weights and
falls back to the last variant when the loop finds none. -/
def selectVariant {α W : Type} [Add W] [Div W] [OfNat W 0] [JSCompare W]
    (bucket : W) (variants : List (WeightedVariant α W)) : Except String α :=
  match variants with
  | [] => .error "selectVariant: variants array must not be empty"
  | v0 :: rest =>
    match selectGo bucket (totalWeight (v0 :: rest)) 0 (v0 :: rest) with
    | some chosen => .ok chosen
    -- Fallback to last variant (handles floating point edge cases)
    | none => .ok (rest.getLastD v0).id

/-- A JavaScript value: the shapes the resolver's content records use.
Objects are association lists of string keys. -/
inductive JSValue where
  | vNull
  | vUndefined
  | vBool (b : Bool)
  | vNum (n : JSNum)
  | vStr (s : String)
  | vArr (elems : List JSValue)
  | vObj (fields : List (String × JSValue))
  deriving Repr

/-- `isRecord(value)` from the source: a non-null, non-array object. -/
def isRecord : JSValue → Bool
  | .vObj _ => true
  | _ => false

/-- `Array.isArray(value)`. -/
def isArray : JSValue → Bool
  | .vArr _ => true
  | _ => false

/-- Total property read `v[k]`: the first binding of `k`, `undefined` when
the key is absent or the value is not an object.  For primitive receivers
this is exactly JS member access (primitives have no own properties and
yield `undefined`), but for `null` and `undefined` receivers JS instead
throws a `TypeError`; this total read collapses that throw to `undefined`.
`getMember` below models the faithful fallible access, and the analysis of
the error-handling claim uses it where the collapse matters — the
variant-coercion map of `resolveBlogPostVariant`, which the source runs on
raw, possibly-`null` array entries. -/
def getField (v : JSValue) (k : String) : JSValue :=
  match v with
  | .vObj fields =>
    match fields.find? (fun p => p.1 == k) with
    | some p => p.2
    | none => .vUndefined
  | _ => .vUndefined

/-- JS property write `v[k] = newVal` (also object-spread override): replaces
the binding of `k` in place, or appends it when absent. -/
def setField (v : JSValue) (k : String) (newVal : JSValue) : JSValue :=
  match v with
  | .vObj fields =>
    if fields.any (fun p => p.1 == k) then
      .vObj (fields.map (fun p => if p.1 == k then (p.1, newVal) else p))
    else
      .vObj (fields ++ [(k, newVal)])
  | _ => v

/-- JS `delete v[k]`. -/
def deleteField (v : JSValue) (k : String) : JSValue :=
  match v with
  | .vObj fields => .vObj (fields.filter (fun p => !(p.1 == k)))
  | _ => v

/-- `k in v`: statement vocabulary for "the record carries the key". -/
def hasField (v : JSValue) (k : String) : Bool :=
  match v with
  | .vObj fields => fields.any (fun p => p.1 == k)
  | _ => false

/-- JS truthiness: `false`, `0`, `NaN`, `""`, `null` and `undefined` are
falsy, every other value truthy. -/
def jsTruthy : JSValue → Bool
  | .vNull => false
  | .vUndefined => false
  | .vBool b => b
  | .vNum .nan => false
  | .vNum (.fin q) => q ≠ 0
  | .vNum _ => true
  | .vStr s => s ≠ ""
  | .vArr _ => true
  | .vObj _ => true

mutual

/-- JS `===`.  Numbers follow `JSNum.strictEq` (`NaN` equals nothing);
the remaining cases are structural.  The source compares object and array
operands by reference; structural equality agrees with that on the one
pattern the resolver uses (looking an element's own `id` back up in the
list it came from) and on every primitive comparison. -/
def jsStrictEq : JSValue → JSValue → Bool
  | .vNull, .vNull => true
  | .vUndefined, .vUndefined => true
  | .vBool a, .vBool b => a == b
  | .vNum a, .vNum b => JSNum.strictEq a b
  | .vStr a, .vStr b => a == b
  | .vArr xs, .vArr ys => jsStrictEqElems xs ys
  | .vObj fs, .vObj gs => jsStrictEqFields fs gs
  | _, _ => false

def jsStrictEqElems : List JSValue → List JSValue → Bool
  | [], [] => true
  | x :: xs, y :: ys => jsStrictEq x y && jsStrictEqElems xs ys
  | _, _ => false

def jsStrictEqFields : List (String × JSValue) → List (String × JSValue) → Bool
  | [], [] => true
  | f :: fs, g :: gs => f.1 == g.1 && jsStrictEq f.2 g.2 && jsStrictEqFields fs gs
  | _, _ => false

end

/-- Decimal string-to-number, for JS `Number(string)`: an optional sign, an
integer part and an optional fraction.  The exotic literal forms the builtin
also accepts (hex, binary, exponents, `Infinity`) are not produced by
content records and map to `NaN` here, an approximation of the builtin. -/
def parseDecimal (s : String) : Option ℚ :=
  let core (t : List Char) : Option ℚ :=
    match t.span (fun c => c.isDigit) with
    | (intPart, []) =>
      if intPart = [] then none
      else some ((String.mk intPart).toNat!)
    | (intPart, '.' :: fracPart) =>
      if intPart = [] ∨ fracPart = [] ∨ ¬ fracPart.all (fun c => c.isDigit) then none
      else some ((String.mk intPart).toNat! +
        ((String.mk fracPart).toNat! : ℚ) / ((10 : ℚ) ^ fracPart.length))
    | _ => none
  match s.toList with
  | '-' :: t => (core t).map (fun q => -q)
  | '+' :: t => core t
  | t => core t

/-- JS `String(value)`.  Finite non-integer numbers are printed as
`numerator/denominator`, an approximation of the shortest-decimal float
printing of the builtin; integers, the special numbers and every
non-numeric shape follow the builtin exactly. -/
def jsToString : JSValue → String
  | .vNull => "null"
  | .vUndefined => "undefined"
  | .vBool true => "true"
  | .vBool false => "false"
  | .vNum .nan => "NaN"
  | .vNum .posInf => "Infinity"
  | .vNum .negInf => "-Infinity"
  | .vNum (.fin q) =>
    if q.den = 1 then toString q.num else toString q.num ++ "/" ++ toString q.den
  | .vStr s => s
  | .vObj _ => "[object Object]"
  | .vArr elems =>
    -- Array.prototype.toString: join with "," where null/undefined print empty
    String.intercalate "," (elems.attach.map (fun p =>
      match p with
      | ⟨.vNull, _⟩ => ""
      | ⟨.vUndefined, _⟩ => ""
      | ⟨v, _⟩ => jsToString v))

/-- JS `Number(value)`: numeric coercion. -/
def jsToNumber : JSValue → JSNum
  | .vNull => .fin 0
  | .vUndefined => .nan
  | .vBool true => .fin 1
  | .vBool false => .fin 0
  | .vNum n => n
  | .vStr s =>
    if (s.trim) = "" then .fin 0
    else match parseDecimal s.trim with
      | some q => .fin q
      | none => .nan
  -- ToNumber on an array goes through its string form
  | .vArr elems =>
    match parseDecimal (jsToString (.vArr elems)) with
    | some q => .fin q
    | none => if (jsToString (.vArr elems)) = "" then .fin 0 else .nan
  | .vObj _ => .nan

/-- `.map` of a throwing callback over a JS array: elements are processed in
list order and the first thrown error aborts the walk and propagates. -/
def mapExc {α β : Type} (f : α → Except String β) : List α → Except String (List β)
  | [] => .ok []
  | a :: as =>
    match f a with
    | .error e => .error e
    | .ok b =>
      match mapExc f as with
      | .error e => .error e
      | .ok bs => .ok (b :: bs)

/-- A field read off an object is smaller than the object. -/
theorem sizeOf_getField_lt (v : JSValue) (k : String)
    (h : getField v k ≠ JSValue.vUndefined) : sizeOf (getField v k) < sizeOf v := by
  cases v with
  | vObj fields =>
    simp only [getField] at h ⊢
    cases hf : fields.find? (fun p => p.1 == k) with
    | none =>
      dsimp only
      have hpos : 0 < sizeOf fields := by cases fields <;> simp_arith
      have h3 : sizeOf (JSValue.vObj fields) = 1 + sizeOf fields := by simp
      have hu : sizeOf JSValue.vUndefined = 1 := by simp
      omega
    | some p =>
      dsimp only at h ⊢
      have hp : p ∈ fields := List.mem_of_find?_eq_some hf
      have h1 : sizeOf p < sizeOf fields := List.sizeOf_lt_of_mem hp
      have h2 : sizeOf p.2 < sizeOf p := by
        obtain ⟨a, b⟩ := p
        simp only [Prod.mk.sizeOf_spec]
        omega
      have h3 : sizeOf (JSValue.vObj fields) = 1 + sizeOf fields := by
        simp
      omega
  | vNull => simp [getField] at h
  | vUndefined => simp [getField] at h
  | vBool b => simp [getField] at h
  | vNum n => simp [getField] at h
  | vStr s => simp [getField] at h
  | vArr elems => simp [getField] at h

/-- An element of an array is smaller than the array. -/
theorem sizeOf_mem_arr_lt {x : JSValue} {xs : List JSValue} (h : x ∈ xs) :
    sizeOf x < sizeOf (JSValue.vArr xs) := by
  have h1 : sizeOf x < sizeOf xs := List.sizeOf_lt_of_mem h
  have h2 : sizeOf (JSValue.vArr xs) = 1 + sizeOf xs := by simp
  omega

/-- `isMultivariateContent(content)` from the source. -/
def isMultivariateContent (content : JSValue) : Bool :=
  jsStrictEq (getField content "multivariate") (.vBool true) &&
    isArray (getField content "variants")

/-- `resolveBlogPostVariant(content, bucket)` from the source.  The JS
function mutates `content` in place and returns nothing; the embedding
returns the record as it stands when the function returns (unchanged on the
no-op path), or the propagated error when `selectVariant` throws. -/
def resolveBlogPostVariant (content : JSValue) (bucket : JSNum) :
    Except String JSValue :=
  if !(jsTruthy (getField content "multivariate")) ||
      !(isArray (getField content "variants")) then
    .ok content
  else
    match getField content "variants" with
    | .vArr variants =>
      let variantConfigs := variants.map (fun v =>
        WeightedVariant.mk (jsToString (getField v "id")) (jsToNumber (getField v "weight")))
      match selectVariant bucket variantConfigs with
      | .error e => .error e
      | .ok selectedId =>
        -- `if (selectedVariant)`: any match of the find has a string `id`
        -- field, hence is an object, hence truthy, so the JS truthiness test
        -- coincides with the match on the optional result.
        let withBlocks :=
          match variants.find? (fun v => jsStrictEq (getField v "id") (.vStr selectedId)) with
          | some selectedVariant => setField content "blocks" (getField selectedVariant "blocks")
          | none =>
            match variants with
            | v0 :: _ => setField content "blocks" (getField v0 "blocks")
            | [] => content
        .ok (deleteField (deleteField withBlocks "multivariate") "variants")
    | _ => .ok content  -- unreachable: the guard established variants is an array

/-- A page-content variant as `resolvePageVariant` consumes it: the spec's
`{id, weight}` plus the `sections` payload.  The weight is a number (the
untyped source adds it straight into the running total); the id is left an
arbitrary JS value so the lookup-failure path is expressible. -/
structure PageVariant where
  id : JSValue
  weight : JSNum
  sections : JSValue

/-- Page content: the `variants` array the resolver reads. -/
structure PageContent where
  variants : List PageVariant

/-- What `resolvePageVariant` returns. -/
structure PageResolved where
  sections : JSValue
  variantId : JSValue

/-- `resolvePageVariant(content, bucket)` from the source: select an id,
look it up with `===` in `content.variants`, and fall back to the first
variant when the lookup fails.  The selector reads only the `id` and
`weight` fields, which the embedding projects out. -/
def resolvePageVariant (content : PageContent) (bucket : JSNum) :
    Except String PageResolved :=
  match selectVariant bucket (content.variants.map (fun v => WeightedVariant.mk v.id v.weight)) with
  | .error e => .error e
  | .ok variantId =>
    match content.variants.find? (fun v => jsStrictEq v.id variantId) with
    | some selectedVariant =>
      .ok { sections := selectedVariant.sections, variantId := variantId }
    | none =>
      -- Fallback to first variant
      match content.variants with
      | v0 :: _ => .ok { sections := v0.sections, variantId := v0.id }
      | [] => .ok { sections := JSValue.vUndefined, variantId := JSValue.vUndefined }
      -- unreachable: on an empty list selectVariant has already thrown

/-- `resolveBlockVariant(block, bucket)` from the source: form blocks with
multivariate data are narrowed to one variant's `document`; layout blocks
recurse into `config.children` / `config.child`; everything else passes
through unchanged. -/
def resolveBlockVariant (block : JSValue) (bucket : JSNum) : Except String JSValue :=
  if !(isRecord block) then .ok block
  else if jsStrictEq (getField block "type") (.vStr "form") then
    let data := getField block "data"
    if !(isRecord data) || !(jsStrictEq (getField data "multivariate") (.vBool true)) then
      .ok block
    else
      match getField data "variants" with
      | .vArr variants =>
        if variants.isEmpty then .ok block
        else
          let variantConfigs := (variants.filter (fun v => isRecord v)).map (fun v =>
            WeightedVariant.mk (jsToString (getField v "id")) (jsToNumber (getField v "weight")))
          match selectVariant bucket variantConfigs with
          | .error e => .error e
          | .ok selectedId =>
            match variants.find? (fun v =>
                isRecord v && jsStrictEq (getField v "id") (.vStr selectedId)) with
            | none => .ok block
            | some selectedVariant =>
              if !(isRecord selectedVariant) then .ok block
              else
                .ok (setField block "data" (.vObj
                  [("definition", getField data "definition"),
                   ("document", getField selectedVariant "document")]))
      | _ => .ok block
  else
    let config := getField block "config"
    if hc : isRecord config = true then
      match h1 : getField config "children" with
      | .vArr children =>
        match mapExc (fun p => resolveBlockVariant p.1 bucket) children.attach with
        | .error e => .error e
        | .ok resolvedChildren =>
          .ok (setField block "config" (setField config "children" (.vArr resolvedChildren)))
      | _ =>
        match h2 : getField config "child" with
        | .vArr children =>
          match mapExc (fun p => resolveBlockVariant p.1 bucket) children.attach with
          | .error e => .error e
          | .ok resolvedChildren =>
            .ok (setField block "config" (setField config "child" (.vArr resolvedChildren)))
        | _ => .ok block
    else .ok block
termination_by sizeOf block
decreasing_by
  · have hmem : p.1 ∈ children := p.2
    have hlt1 : sizeOf p.1 < sizeOf (JSValue.vArr children) := sizeOf_mem_arr_lt hmem
    have hlt2 : sizeOf (JSValue.vArr children) < sizeOf (getField block "config") := by
      rw [← h1]
      exact sizeOf_getField_lt _ _ (by rw [h1]; intro hx; cases hx)
    have hlt3 : sizeOf (getField block "config") < sizeOf block := by
      apply sizeOf_getField_lt
      intro hx
      have hc2 : isRecord (getField block "config") = true := hc
      rw [hx] at hc2
      simp [isRecord] at hc2
    omega
  · have hmem : p.1 ∈ children := p.2
    have hlt1 : sizeOf p.1 < sizeOf (JSValue.vArr children) := sizeOf_mem_arr_lt hmem
    have hlt2 : sizeOf (JSValue.vArr children) < sizeOf (getField block "config") := by
      rw [← h2]
      exact sizeOf_getField_lt _ _ (by rw [h2]; intro hx; cases hx)
    have hlt3 : sizeOf (getField block "config") < sizeOf block := by
      apply sizeOf_getField_lt
      intro hx
      have hc2 : isRecord (getField block "config") = true := hc
      rw [hx] at hc2
      simp [isRecord] at hc2
    omega

/-- `resolveFormVariantsInSections(sections, bucket)` from the source. -/
def resolveFormVariantsInSections (sections : JSValue) (bucket : JSNum) :
    Except String JSValue :=
  match sections with
  | .vArr secs =>
    match mapExc (fun sec =>
      if !(isRecord sec) then .ok sec
      else
        let config := getField sec "config"
        if !(isRecord config) then .ok sec
        else
          match getField config "children" with
          | .vArr children =>
            match mapExc (fun b => resolveBlockVariant b bucket) children with
            | .error e => .error e
            | .ok resolvedChildren =>
              .ok (setField sec "config" (setField config "children" (.vArr resolvedChildren)))
          | _ => .ok sec) secs with
    | .error e => .error e
    | .ok resolved => .ok (.vArr resolved)
  | _ => .ok sections

/-! ### The selector over exact rationals

`ℚ` instantiates the selector for the claims about its arithmetic: finite
JS floats with exact division.  `walkCum t acc l i` is the value of the
loop's `cumulative` after processing element `i` of `l`, having entered the
walk with accumulator `acc`; `cumAt`/`cumBefore` specialise it to the whole
variant list, giving the claim's "running sum of weight / totalWeight". -/

theorem jltQ (a b : ℚ) : JSCompare.jlt a b = decide (a < b) := rfl

def walkCum (t acc : ℚ) (l : List (WeightedVariant String ℚ)) (i : ℕ) : ℚ :=
  acc + ((l.take (i + 1)).map (fun v => v.weight / t)).sum

/-- The cumulative normalized weight of `vs` after variant `i` (0-based). -/
def cumAt (vs : List (WeightedVariant String ℚ)) (i : ℕ) : ℚ :=
  ((vs.take (i + 1)).map (fun v => v.weight / totalWeight vs)).sum

/-- The cumulative normalized weight of `vs` before variant `i`: the lower
end of variant `i`'s bucket interval. -/
def cumBefore (vs : List (WeightedVariant String ℚ)) (i : ℕ) : ℚ :=
  ((vs.take i).map (fun v => v.weight / totalWeight vs)).sum

theorem cumAt_eq_walkCum (vs : List (WeightedVariant String ℚ)) (i : ℕ) :
    cumAt vs i = walkCum (totalWeight vs) 0 vs i := by
  simp [cumAt, walkCum]

theorem cumAt_eq_cumBefore_succ (vs : List (WeightedVariant String ℚ)) (i : ℕ) :
    cumAt vs i = cumBefore vs (i + 1) := rfl

theorem walkCum_zero (t acc : ℚ) (v : WeightedVariant String ℚ)
    (rest : List (WeightedVariant String ℚ)) :
    walkCum t acc (v :: rest) 0 = acc + v.weight / t := by
  simp [walkCum]

theorem walkCum_succ (t acc : ℚ) (v : WeightedVariant String ℚ)
    (rest : List (WeightedVariant String ℚ)) (i : ℕ) :
    walkCum t acc (v :: rest) (i + 1) = walkCum t (acc + v.weight / t) rest i := by
  simp [walkCum, List.take_succ_cons]
  ring

theorem selectGo_cons_q (bucket t acc : ℚ) (v : WeightedVariant String ℚ)
    (rest : List (WeightedVariant String ℚ)) :
    selectGo bucket t acc (v :: rest) =
      if bucket < acc + v.weight / t then some v.id
      else selectGo bucket t (acc + v.weight / t) rest := by
  by_cases h : bucket < acc + v.weight / t
  · rw [if_pos h]
    simp [selectGo, jltQ, h]
  · rw [if_neg h]
    simp [selectGo, jltQ, h]

/-- The loop returns the id of position `i` when `i` is the first position
whose cumulative value exceeds the bucket. -/
theorem selectGo_some (bucket t : ℚ) (l : List (WeightedVariant String ℚ)) :
    ∀ (acc : ℚ) (i : ℕ) (hi : i < l.length),
      bucket < walkCum t acc l i →
      (∀ j, j < i → ¬ bucket < walkCum t acc l j) →
      selectGo bucket t acc l = some ((l.get ⟨i, hi⟩).id) := by
  induction l with
  | nil => intro acc i hi _ _; simp at hi
  | cons v rest ih =>
    intro acc i hi hb hmin
    rw [selectGo_cons_q]
    cases i with
    | zero =>
      rw [walkCum_zero] at hb
      rw [if_pos hb]
      rfl
    | succ k =>
      have h0 : ¬ bucket < acc + v.weight / t := by
        have h00 := hmin 0 (Nat.succ_pos k)
        rwa [walkCum_zero] at h00
      rw [if_neg h0]
      have hk : k < rest.length := by simpa using hi
      have hb2 : bucket < walkCum t (acc + v.weight / t) rest k := by
        rw [← walkCum_succ]; exact hb
      have hmin2 : ∀ j, j < k → ¬ bucket < walkCum t (acc + v.weight / t) rest j := by
        intro j hj
        rw [← walkCum_succ]
        exact hmin (j + 1) (Nat.succ_lt_succ hj)
      rw [ih (acc + v.weight / t) k hk hb2 hmin2]
      rfl

/-- The loop falls through exactly when no cumulative value exceeds the
bucket. -/
theorem selectGo_none (bucket t : ℚ) (l : List (WeightedVariant String ℚ)) :
    ∀ (acc : ℚ),
      (∀ j, j < l.length → ¬ bucket < walkCum t acc l j) →
      selectGo bucket t acc l = none := by
  induction l with
  | nil => intro acc _; rfl
  | cons v rest ih =>
    intro acc hall
    rw [selectGo_cons_q]
    have h0 : ¬ bucket < acc + v.weight / t := by
      have h00 := hall 0 (by simp)
      rwa [walkCum_zero] at h00
    rw [if_neg h0]
    apply ih
    intro j hj
    rw [← walkCum_succ]
    exact hall (j + 1) (by simpa using hj)

theorem selectVariant_cons {α W : Type} [Add W] [Div W] [OfNat W 0] [JSCompare W]
    (bucket : W) (v0 : WeightedVariant α W) (rest : List (WeightedVariant α W)) :
    selectVariant bucket (v0 :: rest) =
      match selectGo bucket (totalWeight (v0 :: rest)) 0 (v0 :: rest) with
      | some chosen => .ok chosen
      | none => .ok (rest.getLastD v0).id := rfl

theorem totalWeight_q_eq_sum (l : List (WeightedVariant String ℚ)) :
    totalWeight l = (l.map (fun v => v.weight)).sum := by
  have key : ∀ (m : List (WeightedVariant String ℚ)) (acc : ℚ),
      m.foldl (fun s v => s + v.weight) acc = acc + (m.map (fun v => v.weight)).sum := by
    intro m
    induction m with
    | nil => intro acc; simp
    | cons v rest ih =>
      intro acc
      simp only [List.foldl_cons, List.map_cons, List.sum_cons, ih]
      ring
  simp [totalWeight, key]

/-- A two-variant even split, used as a concrete instance for the selector
claims. -/
def exList2 : List (WeightedVariant String ℚ) := [⟨"a", 1⟩, ⟨"b", 1⟩]

/-- C1: for every bucket in [0,1) and every non-empty variants list,
`selectVariant` returns the id of the first variant in list order whose
cumulative normalized weight (running sum of `weight / totalWeight`)
strictly exceeds the bucket; if no variant satisfies `bucket < cumulative`,
it returns the id of the last variant in the list. -/
theorem selectVariant_first_exceeding (bucket : ℚ)
    (vs : List (WeightedVariant String ℚ)) (hb0 : 0 ≤ bucket) (hb1 : bucket < 1)
    (hne : vs ≠ []) :
    (∃ i, ∃ hi : i < vs.length,
        selectVariant bucket vs = .ok ((vs.get ⟨i, hi⟩).id) ∧
        bucket < cumAt vs i ∧ ∀ j, j < i → ¬ bucket < cumAt vs j) ∨
    ((∀ j, j < vs.length → ¬ bucket < cumAt vs j) ∧
      selectVariant bucket vs = .ok ((vs.getLast hne).id)) := by
  cases vs with
  | nil => exact absurd rfl hne
  | cons v0 rest =>
    by_cases hex : ∃ i, i < (v0 :: rest).length ∧ bucket < cumAt (v0 :: rest) i
    · left
      have i0spec := Nat.find_spec hex
      refine ⟨Nat.find hex, i0spec.1, ?_, i0spec.2, ?_⟩
      · have hbw : bucket < walkCum (totalWeight (v0 :: rest)) 0 (v0 :: rest) (Nat.find hex) := by
          rw [← cumAt_eq_walkCum]; exact i0spec.2
        have hminw : ∀ j, j < Nat.find hex →
            ¬ bucket < walkCum (totalWeight (v0 :: rest)) 0 (v0 :: rest) j := by
          intro j hj hbj
          exact Nat.find_min hex hj ⟨lt_trans hj i0spec.1, by rwa [cumAt_eq_walkCum]⟩
        have hgo := selectGo_some bucket (totalWeight (v0 :: rest)) (v0 :: rest)
          0 (Nat.find hex) i0spec.1 hbw hminw
        rw [selectVariant_cons, hgo]
      · intro j hj hbj
        exact Nat.find_min hex hj ⟨lt_trans hj i0spec.1, hbj⟩
    · right
      have hall : ∀ j, j < (v0 :: rest).length → ¬ bucket < cumAt (v0 :: rest) j :=
        fun j hj hbj => hex ⟨j, hj, hbj⟩
      refine ⟨hall, ?_⟩
      have hgo := selectGo_none bucket (totalWeight (v0 :: rest)) (v0 :: rest) 0
        (fun j hj hbj => hall j hj (by rwa [cumAt_eq_walkCum]))
      rw [selectVariant_cons, hgo, List.getLast_eq_getLastD]

/-- C1 at a concrete instance: bucket 0 on the even two-way split. -/
theorem selectVariant_first_exceeding_witness :
    (∃ i, ∃ hi : i < exList2.length,
        selectVariant 0 exList2 = .ok ((exList2.get ⟨i, hi⟩).id) ∧
        (0 : ℚ) < cumAt exList2 i ∧ ∀ j, j < i → ¬ (0 : ℚ) < cumAt exList2 j) ∨
    ((∀ j, j < exList2.length → ¬ (0 : ℚ) < cumAt exList2 j) ∧
      selectVariant 0 exList2 = .ok ((exList2.getLast (by simp [exList2])).id)) :=
  selectVariant_first_exceeding 0 exList2 le_rfl (by norm_num) (by simp [exList2])

theorem sum_take_le_sum (M : List ℚ) (hM : ∀ x ∈ M, 0 ≤ x) (i : ℕ) :
    (M.take i).sum ≤ M.sum := by
  conv_rhs => rw [← List.take_append_drop i M]
  rw [List.sum_append]
  have hd : 0 ≤ (M.drop i).sum :=
    List.sum_nonneg (fun x hx => hM x (List.drop_subset i M hx))
  linarith

theorem sum_take_mono (M : List ℚ) (hM : ∀ x ∈ M, 0 ≤ x) {i j : ℕ} (hij : i ≤ j) :
    (M.take i).sum ≤ (M.take j).sum := by
  have h1 : M.take i = (M.take j).take i := by rw [List.take_take, min_eq_left hij]
  rw [h1]
  exact sum_take_le_sum (M.take j) (fun x hx => hM x (List.take_subset j M hx)) i

theorem sum_map_div (l : List (WeightedVariant String ℚ)) (t : ℚ) :
    (l.map (fun v => v.weight / t)).sum = (l.map (fun v => v.weight)).sum / t := by
  induction l with
  | nil => simp
  | cons v rest ih =>
    simp only [List.map_cons, List.sum_cons, ih]
    ring

theorem cumAt_take_sum (vs : List (WeightedVariant String ℚ)) (i : ℕ) :
    cumAt vs i = ((vs.map (fun v => v.weight / totalWeight vs)).take (i + 1)).sum := by
  rw [cumAt, List.map_take]

theorem cumBefore_take_sum (vs : List (WeightedVariant String ℚ)) (i : ℕ) :
    cumBefore vs i = ((vs.map (fun v => v.weight / totalWeight vs)).take i).sum := by
  rw [cumBefore, List.map_take]

/-- With nonnegative weights the normalized entries are nonnegative. -/
theorem normalized_nonneg (vs : List (WeightedVariant String ℚ))
    (hw : ∀ v ∈ vs, 0 ≤ v.weight) (hT : 0 < totalWeight vs) :
    ∀ x ∈ vs.map (fun v => v.weight / totalWeight vs), 0 ≤ x := by
  intro x hx
  obtain ⟨v, hv, rfl⟩ := List.mem_map.1 hx
  exact div_nonneg (hw v hv) (le_of_lt hT)

/-- The normalized weights of the whole list sum to exactly 1. -/
theorem normalized_sum_one (vs : List (WeightedVariant String ℚ))
    (hT : 0 < totalWeight vs) :
    (vs.map (fun v => v.weight / totalWeight vs)).sum = 1 := by
  rw [sum_map_div, ← totalWeight_q_eq_sum]
  exact div_self (ne_of_gt hT)

/-- `selectVariant` lands on the first index whose cumulative value exceeds
the bucket. -/
theorem selectVariant_eq_of_first (bucket : ℚ) (vs : List (WeightedVariant String ℚ))
    (hne : vs ≠ []) (i : ℕ) (hi : i < vs.length) (hb : bucket < cumAt vs i)
    (hmin : ∀ j, j < i → ¬ bucket < cumAt vs j) :
    selectVariant bucket vs = .ok ((vs.get ⟨i, hi⟩).id) := by
  cases vs with
  | nil => simp at hi
  | cons v0 rest =>
    have hbw : bucket < walkCum (totalWeight (v0 :: rest)) 0 (v0 :: rest) i := by
      rw [← cumAt_eq_walkCum]; exact hb
    have hminw : ∀ j, j < i →
        ¬ bucket < walkCum (totalWeight (v0 :: rest)) 0 (v0 :: rest) j := by
      intro j hj
      rw [← cumAt_eq_walkCum]
      exact hmin j hj
    have hgo := selectGo_some bucket (totalWeight (v0 :: rest)) (v0 :: rest) 0 i hi hbw hminw
    rw [selectVariant_cons, hgo]

/-- One cumulative step is the lower interval end plus the variant's own
normalized weight. -/
theorem cumAt_eq_cumBefore_add (vs : List (WeightedVariant String ℚ)) (i : ℕ)
    (hi : i < vs.length) :
    cumAt vs i = cumBefore vs i + (vs.get ⟨i, hi⟩).weight / totalWeight vs := by
  rw [cumAt_take_sum, cumBefore_take_sum]
  have hlen : i < (vs.map (fun v => v.weight / totalWeight vs)).length := by
    simpa using hi
  rw [List.sum_take_succ _ i hlen]
  simp [List.getElem_map]

/-- C3 amended: with nonnegative weights and a positive total, every variant
of positive weight is selected for some bucket in [0,1), and every bucket in
[0,1) selects a variant whose cumulative interval `[cumBefore, cumAt)`
contains the bucket. -/
theorem selectVariant_coverage (vs : List (WeightedVariant String ℚ)) (hne : vs ≠ [])
    (hw : ∀ v ∈ vs, 0 ≤ v.weight) (hT : 0 < totalWeight vs) :
    (∀ i, ∀ hi : i < vs.length, 0 < (vs.get ⟨i, hi⟩).weight →
      ∃ b : ℚ, 0 ≤ b ∧ b < 1 ∧ selectVariant b vs = .ok ((vs.get ⟨i, hi⟩).id)) ∧
    (∀ b : ℚ, 0 ≤ b → b < 1 →
      ∃ i, ∃ hi : i < vs.length, selectVariant b vs = .ok ((vs.get ⟨i, hi⟩).id) ∧
        cumBefore vs i ≤ b ∧ b < cumAt vs i) := by
  have hM := normalized_nonneg vs hw hT
  have hone := normalized_sum_one vs hT
  have hlenpos : 0 < vs.length := List.length_pos.2 hne
  have hcum_le_one : ∀ i, cumAt vs i ≤ 1 := by
    intro i
    rw [cumAt_take_sum, ← hone]
    exact sum_take_le_sum _ hM (i + 1)
  have hbefore_nonneg : ∀ i, 0 ≤ cumBefore vs i := by
    intro i
    rw [cumBefore_take_sum]
    exact List.sum_nonneg (fun x hx => hM x (List.take_subset i _ hx))
  have hbefore_mono : ∀ i j, i ≤ j → cumBefore vs i ≤ cumBefore vs j := by
    intro i j hij
    rw [cumBefore_take_sum, cumBefore_take_sum]
    exact sum_take_mono _ hM hij
  constructor
  · -- reachability of every positive-weight variant
    intro i hi hwi
    refine ⟨cumBefore vs i, hbefore_nonneg i, ?_, ?_⟩
    · have hstep := cumAt_eq_cumBefore_add vs i hi
      have hdiv : 0 < (vs.get ⟨i, hi⟩).weight / totalWeight vs := div_pos hwi hT
      have hlt : cumBefore vs i < cumAt vs i := by rw [hstep]; linarith
      exact lt_of_lt_of_le hlt (hcum_le_one i)
    · apply selectVariant_eq_of_first _ vs hne i hi
      · have hstep := cumAt_eq_cumBefore_add vs i hi
        have hdiv : 0 < (vs.get ⟨i, hi⟩).weight / totalWeight vs := div_pos hwi hT
        rw [hstep]; linarith
      · intro j hj
        rw [cumAt_eq_cumBefore_succ]
        exact not_lt.2 (hbefore_mono (j + 1) i hj)
  · -- every bucket lands in the selected variant's interval
    intro b hb0 hb1
    have hlast : cumAt vs (vs.length - 1) = 1 := by
      rw [cumAt_take_sum]
      have : vs.length - 1 + 1 = vs.length := by omega
      rw [this, ← hone]
      congr 1
      exact List.take_of_length_le (by simp)
    have hex : ∃ i, b < cumAt vs i := ⟨vs.length - 1, by rw [hlast]; exact hb1⟩
    set i0 := Nat.find hex with hi0def
    have hi0 : i0 < vs.length := by
      have h1 : i0 ≤ vs.length - 1 := Nat.find_min' hex (by rw [hlast]; exact hb1)
      omega
    refine ⟨i0, hi0, ?_, ?_, Nat.find_spec hex⟩
    · exact selectVariant_eq_of_first b vs hne i0 hi0 (Nat.find_spec hex)
        (fun j hj => Nat.find_min hex hj)
    · cases h : i0 with
      | zero =>
        have hz : cumBefore vs 0 = 0 := by simp [cumBefore]
        rw [hz]; exact hb0
      | succ k =>
        have hklt : k < Nat.find hex := by rw [← hi0def]; omega
        have hk := Nat.find_min hex hklt
        rw [cumAt_eq_cumBefore_succ] at hk
        exact not_lt.1 hk

/-- A list with a zero-weight variant: its interval is empty, so it can
never be selected. -/
def exListZero : List (WeightedVariant String ℚ) := [⟨"a", 1⟩, ⟨"b", 0⟩]

/-- C3 counterexample: in `[(a, 1), (b, 0)]` the zero-weight variant `b` is
selected for no bucket in [0,1), so not every variant of a non-empty list is
reachable. -/
theorem selectVariant_zero_weight_unreachable :
    ¬ ∃ b : ℚ, (0 ≤ b ∧ b < 1) ∧ selectVariant b exListZero = .ok "b" := by
  rintro ⟨b, ⟨hb0, hb1⟩, hsel⟩
  have hcum : cumAt exListZero 0 = 1 := by
    simp [cumAt, exListZero, totalWeight]
  have h1 := selectVariant_eq_of_first b exListZero (by simp [exListZero]) 0
    (by simp [exListZero]) (by rw [hcum]; exact hb1)
    (fun j hj => absurd hj (Nat.not_lt_zero j))
  rw [hsel] at h1
  simp [exListZero] at h1

/-- C3 (amended) at a concrete instance: the even two-way split. -/
theorem selectVariant_coverage_witness :
    (∀ i, ∀ hi : i < exList2.length, 0 < (exList2.get ⟨i, hi⟩).weight →
      ∃ b : ℚ, 0 ≤ b ∧ b < 1 ∧ selectVariant b exList2 = .ok ((exList2.get ⟨i, hi⟩).id)) ∧
    (∀ b : ℚ, 0 ≤ b → b < 1 →
      ∃ i, ∃ hi : i < exList2.length, selectVariant b exList2 = .ok ((exList2.get ⟨i, hi⟩).id) ∧
        cumBefore exList2 i ≤ b ∧ b < cumAt exList2 i) :=
  selectVariant_coverage exList2 (by simp [exList2])
    (by intro v hv; simp [exList2] at hv; rcases hv with rfl | rfl <;> norm_num)
    (by norm_num [totalWeight, exList2])

/-- Scaling every weight by a constant scales the total by the same
constant. -/
theorem totalWeight_scale (c : ℚ) (l : List (WeightedVariant String ℚ)) :
    totalWeight (l.map (fun v => WeightedVariant.mk v.id (c * v.weight))) =
      c * totalWeight l := by
  have key : ∀ (m : List (WeightedVariant String ℚ)) (acc : ℚ),
      (m.map (fun v => WeightedVariant.mk v.id (c * v.weight))).foldl
          (fun s v => s + v.weight) (c * acc) =
        c * m.foldl (fun s v => s + v.weight) acc := by
    intro m
    induction m with
    | nil => intro acc; simp
    | cons v rest ih =>
      intro acc
      simp only [List.map_cons, List.foldl_cons]
      rw [← mul_add, ih]
  have h0 := key l 0
  rw [mul_zero] at h0
  simpa [totalWeight] using h0

theorem selectGo_scale (bucket c t : ℚ) (hc : c ≠ 0)
    (l : List (WeightedVariant String ℚ)) :
    ∀ acc : ℚ,
      selectGo bucket (c * t) acc (l.map (fun v => WeightedVariant.mk v.id (c * v.weight))) =
        selectGo bucket t acc l := by
  induction l with
  | nil => intro acc; rfl
  | cons v rest ih =>
    intro acc
    rw [List.map_cons, selectGo_cons_q, selectGo_cons_q]
    have hdivs : c * v.weight / (c * t) = v.weight / t := mul_div_mul_left v.weight t hc
    rw [show (WeightedVariant.mk v.id (c * v.weight)).weight = c * v.weight from rfl,
      show (WeightedVariant.mk v.id (c * v.weight)).id = v.id from rfl, hdivs, ih]

theorem getLastD_map_scale (c : ℚ) (d : WeightedVariant String ℚ)
    (l : List (WeightedVariant String ℚ)) :
    (l.map (fun v => WeightedVariant.mk v.id (c * v.weight))).getLastD
        (WeightedVariant.mk d.id (c * d.weight)) =
      WeightedVariant.mk (l.getLastD d).id (c * (l.getLastD d).weight) := by
  induction l generalizing d with
  | nil => rfl
  | cons v rest ih =>
    rw [List.map_cons, List.getLastD_cons, List.getLastD_cons]
    exact ih v

/-- C4: for every bucket in [0,1), every non-empty variant list and every
constant c > 0, multiplying all weights by c leaves the selection
unchanged. -/
theorem selectVariant_scale_invariant (bucket c : ℚ)
    (vs : List (WeightedVariant String ℚ)) (hb0 : 0 ≤ bucket) (hb1 : bucket < 1)
    (hne : vs ≠ []) (hc : 0 < c) :
    selectVariant bucket (vs.map (fun v => WeightedVariant.mk v.id (c * v.weight))) =
      selectVariant bucket vs := by
  cases vs with
  | nil => exact absurd rfl hne
  | cons v0 rest =>
    rw [List.map_cons, selectVariant_cons, selectVariant_cons]
    rw [show (WeightedVariant.mk v0.id (c * v0.weight)) :: rest.map
        (fun v => WeightedVariant.mk v.id (c * v.weight)) =
      ((v0 :: rest).map (fun v => WeightedVariant.mk v.id (c * v.weight))) from rfl]
    rw [totalWeight_scale, selectGo_scale bucket c _ (ne_of_gt hc)]
    cases hgo : selectGo bucket (totalWeight (v0 :: rest)) 0 (v0 :: rest) with
    | some chosen => rfl
    | none =>
      have hlast := getLastD_map_scale c v0 rest
      simp only [hlast]

/-- C4 at a concrete instance: doubling the weights of the even split at
bucket 1/2. -/
theorem selectVariant_scale_invariant_witness :
    selectVariant ((1 : ℚ) / 2)
        (exList2.map (fun v => WeightedVariant.mk v.id (2 * v.weight))) =
      selectVariant ((1 : ℚ) / 2) exList2 :=
  selectVariant_scale_invariant ((1 : ℚ) / 2) 2 exList2 (by norm_num) (by norm_num)
    (by simp [exList2]) (by norm_num)

/-! ### The selector over JS numbers: the all-zero-weight degenerate case -/

theorem jsnum_add_eq (a b : JSNum) : a + b = JSNum.add a b := rfl

theorem jsnum_div_eq (a b : JSNum) : a / b = JSNum.div a b := rfl

theorem jsnum_zero_eq : (0 : JSNum) = JSNum.fin 0 := rfl

theorem jltN (a b : JSNum) : JSCompare.jlt a b = JSNum.jlt a b := rfl

theorem JSNum.jlt_nan (b : JSNum) : JSNum.jlt b JSNum.nan = false := by
  cases b <;> rfl

theorem totalWeight_all_zero (vs : List (WeightedVariant String JSNum))
    (hz : ∀ v ∈ vs, v.weight = JSNum.fin 0) : totalWeight vs = JSNum.fin 0 := by
  have key : ∀ (l : List (WeightedVariant String JSNum)) (q : ℚ),
      (∀ v ∈ l, v.weight = JSNum.fin 0) →
      l.foldl (fun s v => s + v.weight) (JSNum.fin q) = JSNum.fin q := by
    intro l
    induction l with
    | nil => intro q _; rfl
    | cons v rest ih =>
      intro q hzc
      rw [List.foldl_cons, hzc v (by simp)]
      have hstep : JSNum.fin q + JSNum.fin 0 = JSNum.fin q := by
        rw [jsnum_add_eq]
        simp [JSNum.add]
      rw [hstep]
      exact ih q (fun w hw => hzc w (by simp [hw]))
  exact key vs 0 hz

theorem selectGo_nan_all_zero (bucket : JSNum)
    (l : List (WeightedVariant String JSNum))
    (hz : ∀ v ∈ l, v.weight = JSNum.fin 0) :
    selectGo bucket (JSNum.fin 0) JSNum.nan l = none := by
  induction l with
  | nil => rfl
  | cons v rest ih =>
    show (if JSCompare.jlt bucket (JSNum.nan + v.weight / JSNum.fin 0) then some v.id
      else selectGo bucket (JSNum.fin 0) (JSNum.nan + v.weight / JSNum.fin 0) rest) = none
    rw [hz v (by simp)]
    have hc : JSNum.nan + JSNum.fin 0 / JSNum.fin 0 = JSNum.nan := by
      rw [jsnum_div_eq, jsnum_add_eq]
      simp [JSNum.div, JSNum.add]
    rw [hc, jltN, JSNum.jlt_nan]
    simp only [Bool.false_eq_true, if_false]
    exact ih (fun w hw => hz w (by simp [hw]))

/-- C9: when every weight is zero the total is zero, `0 / 0` is `NaN`, the
bucket comparison is always false, and the loop falls through to the last
variant for every bucket — no error is raised. -/
theorem selectVariant_all_zero_weights (bucket : JSNum)
    (vs : List (WeightedVariant String JSNum)) (hne : vs ≠ [])
    (hz : ∀ v ∈ vs, v.weight = JSNum.fin 0) :
    selectVariant bucket vs = .ok ((vs.getLast hne).id) := by
  cases vs with
  | nil => exact absurd rfl hne
  | cons v0 rest =>
    rw [selectVariant_cons, totalWeight_all_zero _ hz]
    have h0 : selectGo bucket (JSNum.fin 0) (0 : JSNum) (v0 :: rest) = none := by
      show (if JSCompare.jlt bucket ((0 : JSNum) + v0.weight / JSNum.fin 0) then some v0.id
        else selectGo bucket (JSNum.fin 0) ((0 : JSNum) + v0.weight / JSNum.fin 0) rest) = none
      rw [hz v0 (by simp)]
      have hc : (0 : JSNum) + JSNum.fin 0 / JSNum.fin 0 = JSNum.nan := by
        rw [jsnum_zero_eq, jsnum_div_eq, jsnum_add_eq]
        simp [JSNum.div, JSNum.add]
      rw [hc, jltN, JSNum.jlt_nan]
      simp only [Bool.false_eq_true, if_false]
      exact selectGo_nan_all_zero bucket rest (fun w hw => hz w (by simp [hw]))
    rw [h0, List.getLast_eq_getLastD]

/-- C9 at a concrete instance: a single zero-weight variant is returned even
for a `NaN` bucket. -/
theorem selectVariant_all_zero_weights_witness :
    selectVariant JSNum.nan
        ([⟨"only", JSNum.fin 0⟩] : List (WeightedVariant String JSNum)) = .ok "only" :=
  selectVariant_all_zero_weights JSNum.nan _ (by simp)
    (by intro v hv; simp at hv; rw [hv])

/-! ### The one error of the library -/

theorem isArray_iff (v : JSValue) : isArray v = true ↔ ∃ l, v = .vArr l := by
  cases v <;> simp [isArray]

theorem isRecord_iff (v : JSValue) : isRecord v = true ↔ ∃ fs, v = .vObj fs := by
  cases v <;> simp [isRecord]

/-- Whatever the weights, the only error `selectVariant` can produce is the
empty-list message. -/
theorem selectVariant_error_msg {α W : Type} [Add W] [Div W] [OfNat W 0] [JSCompare W]
    (bucket : W) (l : List (WeightedVariant α W)) (e : String)
    (h : selectVariant bucket l = .error e) :
    e = "selectVariant: variants array must not be empty" := by
  cases l with
  | nil =>
    simp only [selectVariant, Except.error.injEq] at h
    exact h.symm
  | cons v0 rest =>
    rw [selectVariant_cons] at h
    cases hgo : selectGo bucket (totalWeight (v0 :: rest)) 0 (v0 :: rest) with
    | some chosen => rw [hgo] at h; simp at h
    | none => rw [hgo] at h; simp at h

/-- Errors of a mapped walk come from the callback. -/
theorem mapExc_error_msg {α β : Type} (f : α → Except String β) (M : String)
    (l : List α) (hf : ∀ a ∈ l, ∀ e, f a = .error e → e = M) :
    ∀ e, mapExc f l = .error e → e = M := by
  induction l with
  | nil => intro e h; simp [mapExc] at h
  | cons a as ih =>
    intro e h
    cases hfa : f a with
    | error e2 =>
      simp only [mapExc, hfa, Except.error.injEq] at h
      rw [← h]
      exact hf a (by simp) e2 hfa
    | ok b =>
      cases hrest : mapExc f as with
      | error e2 =>
        simp only [mapExc, hfa, hrest, Except.error.injEq] at h
        rw [← h]
        exact ih (fun x hx => hf x (by simp [hx])) e2 hrest
      | ok bs => simp [mapExc, hfa, hrest] at h

/-- The page resolver only ever raises the selector's empty-list error. -/
theorem resolvePageVariant_error_msg (content : PageContent) (b : JSNum) (e : String)
    (h : resolvePageVariant content b = .error e) :
    e = "selectVariant: variants array must not be empty" := by
  unfold resolvePageVariant at h
  cases hsel : selectVariant b (content.variants.map (fun v => WeightedVariant.mk v.id v.weight)) with
  | error e2 =>
    rw [hsel] at h
    simp only [Except.error.injEq] at h
    rw [← h]
    exact selectVariant_error_msg _ _ _ hsel
  | ok variantId =>
    rw [hsel] at h
    dsimp only at h
    cases hfind : content.variants.find? (fun v => jsStrictEq v.id variantId) with
    | some sv => rw [hfind] at h; simp at h
    | none =>
      rw [hfind] at h
      cases hvs : content.variants with
      | nil => rw [hvs] at h; simp at h
      | cons v0 rest => rw [hvs] at h; simp at h

/-- The blog-post resolver only ever raises the selector's empty-list
error. -/
theorem resolveBlogPostVariant_error_msg (content : JSValue) (b : JSNum) (e : String)
    (h : resolveBlogPostVariant content b = .error e) :
    e = "selectVariant: variants array must not be empty" := by
  unfold resolveBlogPostVariant at h
  by_cases hg : (!(jsTruthy (getField content "multivariate")) ||
      !(isArray (getField content "variants"))) = true
  · rw [if_pos hg] at h; simp at h
  · rw [if_neg hg] at h
    simp only [Bool.or_eq_true, Bool.not_eq_true', not_or, Bool.not_eq_false] at hg
    obtain ⟨hm, ha⟩ := hg
    obtain ⟨variants, harr⟩ := (isArray_iff _).1 ha
    rw [harr] at h
    dsimp only at h
    cases hsel : selectVariant b (variants.map (fun v =>
        WeightedVariant.mk (jsToString (getField v "id")) (jsToNumber (getField v "weight")))) with
    | error e2 =>
      rw [hsel] at h
      simp only [Except.error.injEq] at h
      rw [← h]
      exact selectVariant_error_msg _ _ _ hsel
    | ok selectedId =>
      rw [hsel] at h
      simp at h

theorem resolveBlockVariant_error_aux :
    ∀ (n : ℕ) (blk : JSValue) (b : JSNum) (e : String), sizeOf blk ≤ n →
      resolveBlockVariant blk b = .error e →
      e = "selectVariant: variants array must not be empty" := by
  intro n
  induction n with
  | zero =>
    intro blk b e hsz h
    exfalso
    cases blk <;> simp at hsz
  | succ n ih =>
    intro blk b e hsz h
    unfold resolveBlockVariant at h
    split at h
    · simp at h
    · split at h
      · -- form branch
        dsimp only at h
        split at h
        · simp at h
        · split at h
          · -- vArr variants arm
            split at h
            · simp at h
            · -- nonempty: match selectVariant
              split at h
              · -- selectVariant error arm
                rename_i e2 hseleq
                simp only [Except.error.injEq] at h
                rw [← h]
                exact selectVariant_error_msg _ _ _ hseleq
              · -- ok arm: match find?
                split at h
                · simp at h
                · split at h <;> simp at h
          · -- non-array variants arm
            simp at h
      · -- layout branch
        dsimp only at h
        split at h
        · -- isRecord config = true
          rename_i hc
          split at h
          · -- children arm
            rename_i children h1
            split at h
            · -- mapExc error arm
              rename_i e2 hmap
              simp only [Except.error.injEq] at h
              rw [← h]
              refine mapExc_error_msg _ _ _ ?_ e2 hmap
              intro p hp e3 h3
              refine ih p.1 b e3 ?_ h3
              have hlt1 : sizeOf p.1 < sizeOf (JSValue.vArr children) := sizeOf_mem_arr_lt p.2
              have hlt2 : sizeOf (JSValue.vArr children) < sizeOf (getField blk "config") := by
                rw [← h1]
                exact sizeOf_getField_lt _ _ (by rw [h1]; intro hx; cases hx)
              have hlt3 : sizeOf (getField blk "config") < sizeOf blk := by
                apply sizeOf_getField_lt
                intro hx
                have hc2 : isRecord (getField blk "config") = true := hc
                rw [hx] at hc2
                simp [isRecord] at hc2
              omega
            · simp at h
          · -- child arm
            rename_i hnotchildren
            split at h
            · rename_i children h2
              split at h
              · rename_i e2 hmap
                simp only [Except.error.injEq] at h
                rw [← h]
                refine mapExc_error_msg _ _ _ ?_ e2 hmap
                intro p hp e3 h3
                refine ih p.1 b e3 ?_ h3
                have hlt1 : sizeOf p.1 < sizeOf (JSValue.vArr children) := sizeOf_mem_arr_lt p.2
                have hlt2 : sizeOf (JSValue.vArr children) < sizeOf (getField blk "config") := by
                  rw [← h2]
                  exact sizeOf_getField_lt _ _ (by rw [h2]; intro hx; cases hx)
                have hlt3 : sizeOf (getField blk "config") < sizeOf blk := by
                  apply sizeOf_getField_lt
                  intro hx
                  have hc2 : isRecord (getField blk "config") = true := hc
                  rw [hx] at hc2
                  simp [isRecord] at hc2
                omega
              · simp at h
            · simp at h
        · simp at h

/-- The recursive block resolver only ever raises the selector's empty-list
error. -/
theorem resolveBlockVariant_error_msg (blk : JSValue) (b : JSNum) (e : String)
    (h : resolveBlockVariant blk b = .error e) :
    e = "selectVariant: variants array must not be empty" :=
  resolveBlockVariant_error_aux (sizeOf blk) blk b e le_rfl h

/-- The section-tree resolver only ever raises the selector's empty-list
error. -/
theorem resolveFormVariantsInSections_error_msg (sections : JSValue) (b : JSNum)
    (e : String) (h : resolveFormVariantsInSections sections b = .error e) :
    e = "selectVariant: variants array must not be empty" := by
  unfold resolveFormVariantsInSections at h
  split at h
  · split at h
    · rename_i e2 hmap
      simp only [Except.error.injEq] at h
      rw [← h]
      refine mapExc_error_msg _ _ _ ?_ e2 hmap
      intro sec hsec e3 h3
      dsimp only at h3
      split at h3
      · simp at h3
      · split at h3
        · simp at h3
        · split at h3
          · split at h3
            · rename_i e4 hmap2
              simp only [Except.error.injEq] at h3
              rw [← h3]
              exact mapExc_error_msg _ _ _
                (fun bl _ e5 h5 => resolveBlockVariant_error_msg bl b e5 h5) e4 hmap2
            · simp at h3
          · simp at h3
    · simp at h
  · simp at h

/-- Within the totalized model (member access never throws, see `getField`),
selecting from an empty list fails with the fixed message at both weight
shapes the library passes, and every error any resolver can return is that
same selector error, propagated unchanged.  This is a model-level closure
property only: the real program has one further error source that the total
read erases, the `TypeError` of member access on a `null`/`undefined`
variant entry, exhibited concretely by `blogPost_null_variant_type_error`
below. -/
theorem model_errors_only_empty_variants :
    (∀ b : ℚ, selectVariant b ([] : List (WeightedVariant String ℚ)) =
      .error "selectVariant: variants array must not be empty") ∧
    (∀ b : JSNum, selectVariant b ([] : List (WeightedVariant String JSNum)) =
      .error "selectVariant: variants array must not be empty") ∧
    (∀ (content : JSValue) (b : JSNum) (e : String),
      resolveBlogPostVariant content b = .error e →
      e = "selectVariant: variants array must not be empty") ∧
    (∀ (content : PageContent) (b : JSNum) (e : String),
      resolvePageVariant content b = .error e →
      e = "selectVariant: variants array must not be empty") ∧
    (∀ (sections : JSValue) (b : JSNum) (e : String),
      resolveFormVariantsInSections sections b = .error e →
      e = "selectVariant: variants array must not be empty") ∧
    (∀ (blk : JSValue) (b : JSNum) (e : String),
      resolveBlockVariant blk b = .error e →
      e = "selectVariant: variants array must not be empty") :=
  ⟨fun _ => rfl, fun _ => rfl, resolveBlogPostVariant_error_msg,
    resolvePageVariant_error_msg, resolveFormVariantsInSections_error_msg,
    resolveBlockVariant_error_msg⟩

/-! ### The blog-post resolver -/

/-- C8: when `multivariate` is falsy or `variants` is not an array, the
blog-post resolver returns at the guard and the record is completely
unchanged. -/
theorem resolveBlogPostVariant_noop (content : JSValue) (b : JSNum)
    (h : jsTruthy (getField content "multivariate") = false ∨
      isArray (getField content "variants") = false) :
    resolveBlogPostVariant content b = .ok content := by
  unfold resolveBlogPostVariant
  have hg : (!(jsTruthy (getField content "multivariate")) ||
      !(isArray (getField content "variants"))) = true := by
    rcases h with h | h <;> simp [h]
  rw [if_pos hg]

/-- C8 at a concrete instance: `variants: null` with `multivariate: true` is
a no-op. -/
theorem resolveBlogPostVariant_noop_witness :
    resolveBlogPostVariant
        (JSValue.vObj [("multivariate", JSValue.vBool true), ("variants", JSValue.vNull)])
        (JSNum.fin 0) =
      .ok (JSValue.vObj [("multivariate", JSValue.vBool true), ("variants", JSValue.vNull)]) :=
  resolveBlogPostVariant_noop _ _ (Or.inr rfl)

/-- C5: `multivariate` truthy with an empty `variants` array reaches
`selectVariant` with an empty list, and the thrown error propagates out of
`resolveBlogPostVariant` unswallowed. -/
theorem resolveBlogPostVariant_empty_variants_error (content : JSValue) (b : JSNum)
    (hm : jsTruthy (getField content "multivariate") = true)
    (hv : getField content "variants" = .vArr []) :
    resolveBlogPostVariant content b =
      .error "selectVariant: variants array must not be empty" := by
  unfold resolveBlogPostVariant
  rw [hv, hm]
  simp [isArray, selectVariant]

/-- C5 at a concrete instance. -/
theorem resolveBlogPostVariant_empty_variants_error_witness :
    resolveBlogPostVariant
        (JSValue.vObj [("multivariate", JSValue.vBool true), ("variants", JSValue.vArr [])])
        (JSNum.fin 0) =
      .error "selectVariant: variants array must not be empty" :=
  resolveBlogPostVariant_empty_variants_error _ _ rfl rfl

theorem hasField_deleteField_self (v : JSValue) (k : String) :
    hasField (deleteField v k) k = false := by
  cases v with
  | vObj fields =>
    simp only [hasField, deleteField, List.any_eq_true, List.mem_filter]
    simp
  | vNull => rfl
  | vUndefined => rfl
  | vBool b => rfl
  | vNum n => rfl
  | vStr s => rfl
  | vArr elems => rfl

theorem hasField_deleteField_le (v : JSValue) (k k2 : String)
    (h : hasField (deleteField v k) k2 = true) : hasField v k2 = true := by
  cases v with
  | vObj fields =>
    simp only [hasField, deleteField, List.any_eq_true, List.mem_filter] at h ⊢
    obtain ⟨p, ⟨hp1, _⟩, hp2⟩ := h
    exact ⟨p, hp1, hp2⟩
  | vNull => exact h
  | vUndefined => exact h
  | vBool b => exact h
  | vNum n => exact h
  | vStr s => exact h
  | vArr elems => exact h

theorem hasField_deleteField_of_false (v : JSValue) (k k2 : String)
    (h : hasField v k2 = false) : hasField (deleteField v k) k2 = false := by
  cases hq : hasField (deleteField v k) k2 with
  | false => rfl
  | true => rw [hasField_deleteField_le v k k2 hq] at h; cases h

/-- C6 counterexample: on the no-op path the record is returned unchanged,
still carrying its `multivariate` key — the call does not always strip the
multivariate fields. -/
theorem resolveBlogPostVariant_keeps_keys_on_noop :
    resolveBlogPostVariant (JSValue.vObj [("multivariate", JSValue.vBool false)])
        (JSNum.fin 0) =
      .ok (JSValue.vObj [("multivariate", JSValue.vBool false)]) ∧
    hasField (JSValue.vObj [("multivariate", JSValue.vBool false)]) "multivariate" = true := by
  constructor
  · unfold resolveBlogPostVariant
    rw [if_pos (by rfl)]
  · rfl

/-- C6 amended: on the active path (`multivariate` truthy, `variants` an
array), whenever the call returns normally the returned record carries
neither a `multivariate` nor a `variants` key. -/
theorem resolveBlogPostVariant_removes_keys (content out : JSValue) (b : JSNum)
    (hm : jsTruthy (getField content "multivariate") = true)
    (ha : isArray (getField content "variants") = true)
    (hout : resolveBlogPostVariant content b = .ok out) :
    hasField out "multivariate" = false ∧ hasField out "variants" = false := by
  unfold resolveBlogPostVariant at hout
  obtain ⟨variants, harr⟩ := (isArray_iff _).1 ha
  rw [harr, hm] at hout
  rw [if_neg (by simp [isArray])] at hout
  dsimp only at hout
  cases hsel : selectVariant b (variants.map (fun v =>
      WeightedVariant.mk (jsToString (getField v "id")) (jsToNumber (getField v "weight")))) with
  | error e => rw [hsel] at hout; simp at hout
  | ok selectedId =>
    rw [hsel] at hout
    simp only [Except.ok.injEq] at hout
    rw [← hout]
    constructor
    · exact hasField_deleteField_of_false _ _ _ (hasField_deleteField_self _ _)
    · exact hasField_deleteField_self _ _

/-- C6 (amended) at a concrete instance: a one-variant multivariate post
loses both keys and gains the variant's blocks. -/
theorem resolveBlogPostVariant_removes_keys_witness :
    hasField (JSValue.vObj [("title", JSValue.vStr "t"), ("blocks", JSValue.vArr [])])
        "multivariate" = false ∧
    hasField (JSValue.vObj [("title", JSValue.vStr "t"), ("blocks", JSValue.vArr [])])
        "variants" = false :=
  resolveBlogPostVariant_removes_keys
    (JSValue.vObj [("multivariate", JSValue.vBool true),
      ("variants", JSValue.vArr [JSValue.vObj [("id", JSValue.vStr "a"),
        ("weight", JSValue.vNum (JSNum.fin 1)), ("blocks", JSValue.vArr [])]]),
      ("title", JSValue.vStr "t")])
    (JSValue.vObj [("title", JSValue.vStr "t"), ("blocks", JSValue.vArr [])])
    (JSNum.fin 0) rfl rfl (by
  simp [resolveBlogPostVariant, getField, jsTruthy, isArray, jsToString, jsToNumber,
    selectVariant, selectGo, totalWeight, jsnum_add_eq, jsnum_div_eq, jsnum_zero_eq,
    jltN, JSNum.add, JSNum.div, JSNum.jlt, jsStrictEq, JSNum.strictEq, setField,
    deleteField, hasField, List.find?, List.foldl, List.map, List.filter])

/-- C7: when the selected (coerced, string) id of a multivariate form block
matches no variant's own un-coerced `id`, the recursive block resolver
returns the block unchanged — there is no fallback — while
`resolvePageVariant` and `resolveBlogPostVariant` fall back to variant 0 on
a failed lookup. -/
theorem resolveBlockVariant_no_fallback :
    (∀ (blk : JSValue) (b : JSNum) (variants : List JSValue) (s : String),
      isRecord blk = true →
      getField blk "type" = .vStr "form" →
      isRecord (getField blk "data") = true →
      getField (getField blk "data") "multivariate" = .vBool true →
      getField (getField blk "data") "variants" = .vArr variants →
      variants.isEmpty = false →
      selectVariant b ((variants.filter (fun v => isRecord v)).map (fun v =>
        WeightedVariant.mk (jsToString (getField v "id")) (jsToNumber (getField v "weight")))) =
        .ok s →
      variants.find? (fun v => isRecord v && jsStrictEq (getField v "id") (.vStr s)) = none →
      resolveBlockVariant blk b = .ok blk) ∧
    (∀ (content : PageContent) (b : JSNum) (v0 : PageVariant) (rest : List PageVariant)
        (vid : JSValue),
      content.variants = v0 :: rest →
      selectVariant b (content.variants.map (fun v => WeightedVariant.mk v.id v.weight)) =
        .ok vid →
      content.variants.find? (fun v => jsStrictEq v.id vid) = none →
      resolvePageVariant content b = .ok { sections := v0.sections, variantId := v0.id }) ∧
    (∀ (content : JSValue) (b : JSNum) (v0 : JSValue) (rest : List JSValue) (s : String),
      jsTruthy (getField content "multivariate") = true →
      getField content "variants" = .vArr (v0 :: rest) →
      selectVariant b ((v0 :: rest).map (fun v =>
        WeightedVariant.mk (jsToString (getField v "id")) (jsToNumber (getField v "weight")))) =
        .ok s →
      (v0 :: rest).find? (fun v => jsStrictEq (getField v "id") (.vStr s)) = none →
      resolveBlogPostVariant content b = .ok (deleteField (deleteField
        (setField content "blocks" (getField v0 "blocks")) "multivariate") "variants")) := by
  refine ⟨?_, ?_, ?_⟩
  · intro blk b variants s hrec htype hdata hmv harr hne hsel hfind
    unfold resolveBlockVariant
    simp [hrec, htype, hdata, hmv, harr, hne, hsel, hfind, jsStrictEq]
  · intro content b v0 rest vid hvs hsel hfind
    unfold resolvePageVariant
    rw [hsel]
    dsimp only
    rw [hfind, hvs]
  · intro content b v0 rest s hm harr hsel hfind
    unfold resolveBlogPostVariant
    rw [harr, hm]
    rw [if_neg (by simp [isArray])]
    dsimp only
    rw [hsel]
    dsimp only
    rw [hfind]

/-- C10: `resolveBlockVariant` filters non-record entries out of a form
block's variants before selection, so a non-empty variants array whose
entries are all non-records reaches `selectVariant` with an empty list and
the empty-list error propagates out of `resolveFormVariantsInSections`. -/
theorem resolveFormVariants_all_nonrecord_error
    (sec config blk data : JSValue) (b : JSNum) (vs : List JSValue)
    (hsec : isRecord sec = true)
    (hconfig : getField sec "config" = config)
    (hcrec : isRecord config = true)
    (hchildren : getField config "children" = .vArr [blk])
    (hblk : isRecord blk = true)
    (htype : getField blk "type" = .vStr "form")
    (hdata : getField blk "data" = data)
    (hdrec : isRecord data = true)
    (hmv : getField data "multivariate" = .vBool true)
    (hvarr : getField data "variants" = .vArr vs)
    (hne : vs.isEmpty = false)
    (hnr : ∀ v ∈ vs, isRecord v = false) :
    resolveFormVariantsInSections (.vArr [sec]) b =
      .error "selectVariant: variants array must not be empty" := by
  have hfilter : vs.filter (fun v => isRecord v) = [] :=
    List.filter_eq_nil_iff.mpr (by intro a ha; simp [hnr a ha])
  have hblkerr : resolveBlockVariant blk b =
      .error "selectVariant: variants array must not be empty" := by
    unfold resolveBlockVariant
    simp [hblk, htype, hdata, hdrec, hmv, hvarr, hne, hfilter, jsStrictEq, selectVariant]
  unfold resolveFormVariantsInSections
  simp [mapExc, hsec, hconfig, hcrec, hchildren, hblkerr]

/-- C10 at a concrete instance: a form block whose variants are all strings
throws even though the variants array is non-empty. -/
theorem resolveFormVariants_all_nonrecord_error_witness :
    resolveFormVariantsInSections
        (JSValue.vArr [JSValue.vObj [("config", JSValue.vObj [("children",
          JSValue.vArr [JSValue.vObj [("type", JSValue.vStr "form"),
            ("data", JSValue.vObj [("multivariate", JSValue.vBool true),
              ("variants", JSValue.vArr [JSValue.vStr "x"])])]])])]])
        (JSNum.fin 0) =
      .error "selectVariant: variants array must not be empty" :=
  resolveFormVariants_all_nonrecord_error _ _ _ _ (JSNum.fin 0) [JSValue.vStr "x"]
    rfl rfl rfl rfl rfl rfl rfl rfl rfl rfl rfl
    (by intro v hv; simp at hv; rw [hv]; rfl)

/-! ### Faithful member access and the null-entry TypeError

JS member access on `null`/`undefined` throws; the resolvers' embedding
totalizes it (see `getField`).  The one place the source performs member
access on values that can be `null`/`undefined` without a prior guard is the
variant-coercion map of `resolveBlogPostVariant`, so that path is modelled
faithfully here and shown to raise an error that is not the selector's
empty-list error. -/

/-- JS member access `v[k]` as the language defines it: reading a property
of `null` or `undefined` throws a `TypeError`; every other receiver yields
the total read (primitives give `undefined`). -/
def getMember (v : JSValue) (k : String) : Except String JSValue :=
  match v with
  | .vNull => .error ("TypeError: Cannot read properties of null (reading '" ++ k ++ "')")
  | .vUndefined => .error ("TypeError: Cannot read properties of undefined (reading '" ++ k ++ "')")
  | w => .ok (getField w k)

/-- The variant-coercion map of `resolveBlogPostVariant`,
`variants.map(v => ({id: String(v.id), weight: Number(v.weight)}))`, with
faithful member access: the read of `id` on a `null`/`undefined` entry
throws before any coercion happens, in the source's evaluation order. -/
def blogVariantConfigs : List JSValue → Except String (List (WeightedVariant String JSNum))
  | [] => .ok []
  | v :: vs =>
    match getMember v "id" with
    | .error e => .error e
    | .ok idVal =>
      match getMember v "weight" with
      | .error e => .error e
      | .ok wVal =>
        match blogVariantConfigs vs with
        | .error e => .error e
        | .ok rest => .ok (WeightedVariant.mk (jsToString idVal) (jsToNumber wVal) :: rest)

/-- C2 (code bug): the record `{multivariate: true, variants: [null]}`
passes both guards of `resolveBlogPostVariant` — `multivariate` is truthy
and `variants` is an array — and the variant-coercion map then throws a
`TypeError` at the read `v.id` on the `null` entry: an error different from
the documented empty-variants error.  The code thus raises an error the
claim (and the spec's error-handling design, which promises that wrong-type
data degrades silently) says cannot happen; the sibling form-block path
filters non-record entries before the same coercion and so degrades as
documented. -/
theorem blogPost_null_variant_type_error :
    jsTruthy (getField (JSValue.vObj [("multivariate", JSValue.vBool true),
      ("variants", JSValue.vArr [JSValue.vNull])]) "multivariate") = true ∧
    isArray (getField (JSValue.vObj [("multivariate", JSValue.vBool true),
      ("variants", JSValue.vArr [JSValue.vNull])]) "variants") = true ∧
    blogVariantConfigs [JSValue.vNull] =
      .error "TypeError: Cannot read properties of null (reading 'id')" ∧
    ("TypeError: Cannot read properties of null (reading 'id')" : String) ≠
      "selectVariant: variants array must not be empty" :=
  ⟨rfl, rfl, rfl, by decide⟩

/-! ### Concrete scenarios from the spec

Standalone evaluations of the embedding on the spec's concrete examples,
checking that the model computes the documented results. -/

theorem scenario_even_split_low :
    selectVariant (0 : ℚ) ([⟨"a", 50⟩, ⟨"b", 50⟩] : List (WeightedVariant String ℚ)) =
      .ok "a" := by
  simp [selectVariant, selectGo, totalWeight, jltQ]

theorem scenario_even_split_high :
    selectVariant ((1 : ℚ) / 2)
        ([⟨"a", 50⟩, ⟨"b", 50⟩] : List (WeightedVariant String ℚ)) = .ok "b" := by
  simp [selectVariant, selectGo, totalWeight, jltQ]
  norm_num

theorem scenario_ninety_ten :
    selectVariant ((99 : ℚ) / 100)
        ([⟨"first", 90⟩, ⟨"second", 10⟩] : List (WeightedVariant String ℚ)) =
      .ok "second" := by
  simp [selectVariant, selectGo, totalWeight, jltQ]
  norm_num

/-- A form block whose variant ids are numbers: the coerced selection id (a
string) matches no raw id, and the block comes back unchanged — the
lookup-failure hypothesis of the no-fallback property is satisfiable. -/
theorem scenario_form_block_numeric_id_unchanged :
    resolveBlockVariant
        (JSValue.vObj [("type", JSValue.vStr "form"),
          ("data", JSValue.vObj [("multivariate", JSValue.vBool true),
            ("variants", JSValue.vArr [JSValue.vObj [("id", JSValue.vNum (JSNum.fin 1)),
              ("weight", JSValue.vNum (JSNum.fin 1)),
              ("document", JSValue.vNull)]])])])
        (JSNum.fin 0) =
      .ok (JSValue.vObj [("type", JSValue.vStr "form"),
        ("data", JSValue.vObj [("multivariate", JSValue.vBool true),
          ("variants", JSValue.vArr [JSValue.vObj [("id", JSValue.vNum (JSNum.fin 1)),
            ("weight", JSValue.vNum (JSNum.fin 1)),
            ("document", JSValue.vNull)]])])]) := by
  unfold resolveBlockVariant
  simp [getField, isRecord, jsStrictEq, jsToNumber, selectVariant, selectGo, totalWeight,
    jltN, jsnum_add_eq, jsnum_div_eq, jsnum_zero_eq, JSNum.add, JSNum.div, JSNum.jlt,
    JSNum.strictEq, List.filter]

/-- A page variant with a `NaN` id: the selected id never compares equal, so
the page resolver takes its fallback to variant 0. -/
theorem scenario_page_nan_id_fallback :
    resolvePageVariant
        ⟨[⟨JSValue.vNum JSNum.nan, JSNum.fin 1, JSValue.vStr "s0"⟩,
          ⟨JSValue.vNum JSNum.nan, JSNum.fin 1, JSValue.vStr "s1"⟩]⟩ (JSNum.fin 0) =
      .ok ⟨JSValue.vStr "s0", JSValue.vNum JSNum.nan⟩ := by
  unfold resolvePageVariant
  simp [selectVariant, selectGo, totalWeight, jltN, jsnum_add_eq, jsnum_div_eq,
    jsnum_zero_eq, JSNum.add, JSNum.div, JSNum.jlt, jsStrictEq, JSNum.strictEq]

/-- The spec's nested-form scenario: a section whose form block carries one
string-id variant has its `data` narrowed to `definition` plus the chosen
variant's `document`, with the surrounding tree shape untouched. -/
theorem scenario_section_form_resolved :
    resolveFormVariantsInSections
        (JSValue.vArr [JSValue.vObj [("type", JSValue.vStr "section"),
          ("config", JSValue.vObj [("children",
            JSValue.vArr [JSValue.vObj [("type", JSValue.vStr "form"),
              ("data", JSValue.vObj [("definition", JSValue.vObj []),
                ("multivariate", JSValue.vBool true),
                ("variants", JSValue.vArr [JSValue.vObj [("id", JSValue.vStr "v"),
                  ("weight", JSValue.vNum (JSNum.fin 100)),
                  ("document", JSValue.vObj [("k", JSValue.vNum (JSNum.fin 1))])]])])]])])]])
        (JSNum.fin 0) =
      .ok (JSValue.vArr [JSValue.vObj [("type", JSValue.vStr "section"),
        ("config", JSValue.vObj [("children",
          JSValue.vArr [JSValue.vObj [("type", JSValue.vStr "form"),
            ("data", JSValue.vObj [("definition", JSValue.vObj []),
              ("document", JSValue.vObj [("k", JSValue.vNum (JSNum.fin 1))])])]])])]]) := by
  have hblock : resolveBlockVariant
      (JSValue.vObj [("type", JSValue.vStr "form"),
        ("data", JSValue.vObj [("definition", JSValue.vObj []),
          ("multivariate", JSValue.vBool true),
          ("variants", JSValue.vArr [JSValue.vObj [("id", JSValue.vStr "v"),
            ("weight", JSValue.vNum (JSNum.fin 100)),
            ("document", JSValue.vObj [("k", JSValue.vNum (JSNum.fin 1))])]])])])
      (JSNum.fin 0) =
      .ok (JSValue.vObj [("type", JSValue.vStr "form"),
        ("data", JSValue.vObj [("definition", JSValue.vObj []),
          ("document", JSValue.vObj [("k", JSValue.vNum (JSNum.fin 1))])])]) := by
    unfold resolveBlockVariant
    simp [getField, isRecord, jsStrictEq, jsToString, jsToNumber, selectVariant, selectGo,
      totalWeight, jltN, jsnum_add_eq, jsnum_div_eq, jsnum_zero_eq, JSNum.add, JSNum.div,
      JSNum.jlt, JSNum.strictEq, List.filter, setField]
  unfold resolveFormVariantsInSections
  simp [mapExc, getField, isRecord, setField, hblock]

end CmsUtils
